import Mathlib

/-!
Shallow embedding of the cookie grouping / classification routine of
`src/components/dialogs/cookieBrowserDialog.tsx` (functions
`compareCaseInsensitive`, `compareDomain`, `compareCookieName`,
`getCookieList`).

Modelling choices, all reflecting JS semantics of the source:
* JS strings are Lean `String`s viewed as their `List Char` data; the JS
  `<` operator on strings is lexicographic comparison of code units,
  embedded as `lexLt` / `jsLt`; `s.toLowerCase()` is per-character
  lowercasing `toLowerCase` (the domains and cookie names concerned are
  ASCII); `s.startsWith(".")` is `s.data.head? = some '.'` and
  `s.substr(1)` is `s.drop 1`.
* The plain JS object `cookiesByDomain` is an insertion-ordered
  association list: property read is `lookupKey`, property write is
  `setKey` (replace in place when the key exists, append otherwise);
  `Object.keys(m).map (m ·)` is `m.map Prod.snd`.  (JS additionally
  fronts integer-like keys; no claim depends on the pre-sort order, so
  plain insertion order is kept.)
* `Array.prototype.sort(cmp)` with a consistent comparator produces a
  stable, sorted permutation; it is embedded as `List.insertionSort`
  over the relation `cmp a b ≤ 0`, which is stable and sorted.
* The external collaborators (`tldjs.getDomain`, the settings oracle and
  `getBadgeForCleanupType`) are parameters, bundled in `Env`; the JS
  `getDomain(rawDomain) || rawDomain` fallback (`null` and `""` are
  falsy) is `jsOrElse`.
* `browser.cookies.getAll({})` delivers the input list; only the
  `domain` and `name` fields of a cookie are read by this routine, the
  record itself is carried through opaquely.
-/

namespace CookieBrowser

/-- CleanupType enumeration from `lib/settingsSignature` (NEVER, STARTUP,
LEAVE, INSTANTLY). -/
inductive CleanupType
  | never
  | startup
  | leave
  | instantly
deriving DecidableEq

/-- Fields of a `Cookies.Cookie` record read by `getCookieList`. -/
structure Cookie where
  domain : String
  name : String
deriving DecidableEq

/-- Mirror of the source interface `CookieListCookie`; `Badge` stands for
the external `BadgeInfo` type. -/
structure CookieListCookie (Badge : Type) where
  badge : Badge
  cookie : Cookie
deriving DecidableEq

/-- Mirror of the source interface `CookieListForDomain`. -/
structure CookieListForDomain (Badge : Type) where
  badge : Badge
  domain : String
  firstPartyDomain : String
  cookies : List (CookieListCookie Badge)
deriving DecidableEq

/-- External collaborators of `getCookieList`: `tldjs.getDomain` (returns
`null` on resolution failure, hence `Option`), the settings oracle and
the badge mapping from `backgroundHelpers`. -/
structure Env (Badge : Type) where
  getDomain : String → Option String
  getCleanupTypeForCookie : String → String → CleanupType
  getCleanupTypeForDomain : String → CleanupType
  getBadgeForCleanupType : CleanupType → Badge

/-- Lexicographic `<` on code-unit lists, the JS `<` on strings. -/
def lexLt : List Char → List Char → Bool
  | _, [] => false
  | [], _ :: _ => true
  | c :: cs, d :: ds => if c < d then true else if d < c then false else lexLt cs ds

/-- JS string comparison `a < b`. -/
def jsLt (a b : String) : Bool :=
  lexLt a.data b.data

/-- JS `String.prototype.toLowerCase` (ASCII range). -/
def toLowerCase (s : String) : String :=
  ⟨s.data.map Char.toLower⟩

/-- Source function `compareCaseInsensitive`. -/
def compareCaseInsensitive (a b : String) : Int :=
  let lowerA := toLowerCase a
  let lowerB := toLowerCase b
  if jsLt lowerA lowerB then -1
  else if jsLt lowerB lowerA then 1
  else 0

variable {B : Type}

/-- Source function `compareDomain`. -/
def compareDomain (a b : CookieListForDomain B) : Int :=
  let value := compareCaseInsensitive a.firstPartyDomain b.firstPartyDomain
  if value ≠ 0 then value else compareCaseInsensitive a.domain b.domain

/-- Source function `compareCookieName`. -/
def compareCookieName (a b : CookieListCookie B) : Int :=
  compareCaseInsensitive a.cookie.name b.cookie.name

/-- Order relation realised by `.sort(compareDomain)`. -/
def domainLe (a b : CookieListForDomain B) : Prop :=
  compareDomain a b ≤ 0

instance : DecidableRel (domainLe (B := B)) :=
  fun a b => inferInstanceAs (Decidable (compareDomain a b ≤ 0))

/-- Order relation realised by `.sort(compareCookieName)`. -/
def cookieNameLe (a b : CookieListCookie B) : Prop :=
  compareCookieName a b ≤ 0

instance : DecidableRel (cookieNameLe (B := B)) :=
  fun a b => inferInstanceAs (Decidable (compareCookieName a b ≤ 0))

/-- JS `cookie.domain.startsWith(".") ? cookie.domain.substr(1) :
cookie.domain`, the bucket key computation of `getCookieList`. -/
def rawDomainOf (domain : String) : String :=
  if domain.data.head? = some '.' then domain.drop 1 else domain

/-- JS `x || y` for `x : string | null` (both `null` and `""` are falsy). -/
def jsOrElse (x : Option String) (y : String) : String :=
  match x with
  | some s => if s.data.isEmpty then y else s
  | none => y

/-- JS object property read `m[k]`. -/
def lookupKey (m : List (String × CookieListForDomain B)) (k : String) :
    Option (CookieListForDomain B) :=
  (m.find? fun p => p.1 == k).map Prod.snd

/-- JS object property write `m[k] = v`: replace in place when the key is
present, append otherwise. -/
def setKey (m : List (String × CookieListForDomain B)) (k : String)
    (v : CookieListForDomain B) : List (String × CookieListForDomain B) :=
  if m.any (fun p => p.1 == k) then m.map fun p => if p.1 == k then (k, v) else p
  else m ++ [(k, v)]

/-- Body of the `for (const cookie of cookies)` loop of `getCookieList`. -/
def processCookie (env : Env B) (cookiesByDomain : List (String × CookieListForDomain B))
    (cookie : Cookie) : List (String × CookieListForDomain B) :=
  let rawDomain := rawDomainOf cookie.domain
  let firstPartyDomain := jsOrElse (env.getDomain rawDomain) rawDomain
  let cleanupTypeForCookie := env.getCleanupTypeForCookie rawDomain cookie.name
  let badge := env.getBadgeForCleanupType cleanupTypeForCookie
  let byDomain := lookupKey cookiesByDomain cookie.domain
  let mapped : CookieListCookie B := ⟨badge, cookie⟩
  match byDomain with
  | some g => setKey cookiesByDomain cookie.domain { g with cookies := g.cookies ++ [mapped] }
  | none =>
      setKey cookiesByDomain rawDomain
        { badge := env.getBadgeForCleanupType (env.getCleanupTypeForDomain rawDomain)
          domain := cookie.domain
          firstPartyDomain := firstPartyDomain
          cookies := [mapped] }

/-- Source function `getCookieList`; the cookie snapshot delivered by
`browser.cookies.getAll({})` is the `cookies` argument. -/
def getCookieList (env : Env B) (cookies : List Cookie) : List (CookieListForDomain B) :=
  let cookiesByDomain := cookies.foldl (processCookie env) []
  let cookiesByDomainList := List.insertionSort domainLe (cookiesByDomain.map Prod.snd)
  cookiesByDomainList.map fun a => { a with cookies := List.insertionSort cookieNameLe a.cookies }

/-- State of `cookiesByDomain` after the loop, as a value list in key
order, before the two sorts are applied. -/
def getCookieListUnsorted (env : Env B) (cookies : List Cookie) :
    List (CookieListForDomain B) :=
  (cookies.foldl (processCookie env) []).map Prod.snd

/-- Number of cookie entries across a group list. -/
def totalCookies (l : List (CookieListForDomain B)) : Nat :=
  (l.map fun g => g.cookies.length).sum

/-- All cookie records across a group list, in display order. -/
def allCookies (l : List (CookieListForDomain B)) : List Cookie :=
  (l.map fun g => g.cookies.map fun e => e.cookie).flatten

/-- Concrete oracle instantiation used to evaluate the routine on sample
inputs: a first-party resolver knowing the demo domains, trivial badges. -/
def demoEnv : Env Unit where
  getDomain := fun d =>
    if d == "example.com" ∨ d == "sub.example.com" then some "example.com"
    else if d == "other.org" then some "other.org"
    else none
  getCleanupTypeForCookie := fun _ _ => CleanupType.never
  getCleanupTypeForDomain := fun _ => CleanupType.never
  getBadgeForCleanupType := fun _ => ()

/-- Same oracle responses as `demoEnv`, written as eta-expansions. -/
def demoEnvTwin : Env Unit where
  getDomain := fun d => demoEnv.getDomain d
  getCleanupTypeForCookie := fun d n => demoEnv.getCleanupTypeForCookie d n
  getCleanupTypeForDomain := fun d => demoEnv.getCleanupTypeForDomain d
  getBadgeForCleanupType := fun t => demoEnv.getBadgeForCleanupType t

/-- Oracle whose first-party resolver fails on every input. -/
def nullResolverEnv : Env Unit where
  getDomain := fun _ => none
  getCleanupTypeForCookie := fun _ _ => CleanupType.never
  getCleanupTypeForDomain := fun _ => CleanupType.never
  getBadgeForCleanupType := fun _ => ()

/-- Undotted record first, its dotted sibling second. -/
def dotAfterInput : List Cookie :=
  [⟨"example.com", "a"⟩, ⟨".example.com", "b"⟩]

/-- Dotted record first, its undotted sibling second. -/
def dotFirstInput : List Cookie :=
  [⟨".example.com", "b"⟩, ⟨"example.com", "a"⟩]

/-- Two dot-free records on distinct first parties. -/
def demoInput : List Cookie :=
  [⟨"sub.example.com", "b"⟩, ⟨"other.org", "a"⟩]

/-- Resolver-failure variant of `dotAfterInput`: `nullResolverEnv` returns
`none` on `"localhost"`. -/
def localhostInput : List Cookie :=
  [⟨"localhost", "a"⟩, ⟨".localhost", "b"⟩]

/-- Invariant of the `cookiesByDomain` object: keys are distinct, every
group's display domain equals its key, and every member cookie's domain
equals its group's key. It holds throughout the loop when no input
domain carries a leading dot. -/
def GoodMap (m : List (String × CookieListForDomain B)) : Prop :=
  (m.map Prod.fst).Nodup ∧
  ∀ p ∈ m, p.2.domain = p.1 ∧ ∀ e ∈ p.2.cookies, e.cookie.domain = p.1

/-- First group produced for `demoInput` under `demoEnv`. -/
def demoGroup : CookieListForDomain Unit :=
  ⟨(), "sub.example.com", "example.com", [⟨(), ⟨"sub.example.com", "b"⟩⟩]⟩

/-! Order facts about the comparator chain. -/

theorem lexLt_self (l : List Char) : lexLt l l = false := by
  induction l with
  | nil => rfl
  | cons c cs ih => simp [lexLt, lt_irrefl, ih]

theorem lexLt_asymm {a : List Char} : ∀ {b : List Char}, lexLt a b = true → lexLt b a = false := by
  induction a with
  | nil =>
    intro b h
    cases b with
    | nil => simp [lexLt] at h
    | cons d ds => rfl
  | cons c cs ih =>
    intro b h
    cases b with
    | nil => simp [lexLt] at h
    | cons d ds =>
      simp only [lexLt] at h ⊢
      rcases lt_trichotomy c d with hcd | heq | hcd
      · simp [hcd, asymm hcd]
      · subst heq
        simp only [lt_irrefl, if_false] at h ⊢
        exact ih h
      · simp [hcd, asymm hcd] at h

theorem lexLt_trans {a : List Char} :
    ∀ {b c : List Char}, lexLt a b = true → lexLt b c = true → lexLt a c = true := by
  induction a with
  | nil =>
    intro b c h1 h2
    cases b with
    | nil => simp [lexLt] at h1
    | cons y ys =>
      cases c with
      | nil => simp [lexLt] at h2
      | cons z zs => rfl
  | cons x xs ih =>
    intro b c h1 h2
    cases b with
    | nil => simp [lexLt] at h1
    | cons y ys =>
      cases c with
      | nil => simp [lexLt] at h2
      | cons z zs =>
        simp only [lexLt] at h1 h2 ⊢
        rcases lt_trichotomy x y with hxy | hxy | hxy
        · rcases lt_trichotomy y z with hyz | hyz | hyz
          · simp [lt_trans hxy hyz]
          · subst hyz; simp [hxy]
          · simp [hyz, asymm hyz] at h2
        · subst hxy
          simp only [lt_irrefl, if_false] at h1
          rcases lt_trichotomy x z with hxz | hxz | hxz
          · simp [hxz]
          · subst hxz
            simp only [lt_irrefl, if_false] at h2 ⊢
            exact ih h1 h2
          · simp [hxz, asymm hxz] at h2
        · simp [hxy, asymm hxy] at h1

theorem eq_of_lexLt_false {a : List Char} :
    ∀ {b : List Char}, lexLt a b = false → lexLt b a = false → a = b := by
  induction a with
  | nil =>
    intro b h1 _
    cases b with
    | nil => rfl
    | cons d ds => simp [lexLt] at h1
  | cons c cs ih =>
    intro b h1 h2
    cases b with
    | nil => simp [lexLt] at h2
    | cons d ds =>
      simp only [lexLt] at h1 h2
      rcases lt_trichotomy c d with hcd | hcd | hcd
      · simp [hcd] at h1
      · subst hcd
        simp only [lt_irrefl, if_false] at h1 h2
        rw [ih h1 h2]
      · simp [hcd] at h2

theorem lexLt_false_trans {a b c : List Char} (h1 : lexLt a b = false)
    (h2 : lexLt b c = false) : lexLt a c = false := by
  cases hba : lexLt b a with
  | true =>
    cases hac : lexLt a c with
    | false => rfl
    | true =>
      have hbc := lexLt_trans hba hac
      rw [h2] at hbc
      simp at hbc
  | false =>
    have h : a = b := eq_of_lexLt_false h1 hba
    rw [h]
    exact h2

theorem jsLt_self (a : String) : jsLt a a = false :=
  lexLt_self _

theorem jsLt_asymm {a b : String} (h : jsLt a b = true) : jsLt b a = false :=
  lexLt_asymm h

theorem jsLt_trans {a b c : String} (h1 : jsLt a b = true) (h2 : jsLt b c = true) :
    jsLt a c = true :=
  lexLt_trans h1 h2

theorem jsLt_false_trans {a b c : String} (h1 : jsLt a b = false) (h2 : jsLt b c = false) :
    jsLt a c = false :=
  lexLt_false_trans h1 h2

theorem eq_of_jsLt_false {a b : String} (h1 : jsLt a b = false) (h2 : jsLt b a = false) :
    a = b := by
  cases a with
  | mk da =>
    cases b with
    | mk db => exact congrArg String.mk (eq_of_lexLt_false h1 h2)

theorem compareCaseInsensitive_eq (a b : String) :
    compareCaseInsensitive a b =
      if jsLt (toLowerCase a) (toLowerCase b) then -1
      else if jsLt (toLowerCase b) (toLowerCase a) then 1 else 0 :=
  rfl

theorem compareCaseInsensitive_le_zero_iff (a b : String) :
    compareCaseInsensitive a b ≤ 0 ↔ jsLt (toLowerCase b) (toLowerCase a) = false := by
  rw [compareCaseInsensitive_eq]
  split_ifs with h1 h2
  · exact iff_of_true (by decide) (jsLt_asymm h1)
  · exact iff_of_false (by decide) (by simp [h2])
  · exact iff_of_true (by decide) (by simpa using h2)

theorem compareCaseInsensitive_eq_zero_iff (a b : String) :
    compareCaseInsensitive a b = 0 ↔ toLowerCase a = toLowerCase b := by
  rw [compareCaseInsensitive_eq]
  split_ifs with h1 h2
  · refine iff_of_false (by decide) fun heq => ?_
    rw [heq, jsLt_self] at h1
    simp at h1
  · refine iff_of_false (by decide) fun heq => ?_
    rw [heq, jsLt_self] at h2
    simp at h2
  · exact iff_of_true rfl (eq_of_jsLt_false (by simpa using h1) (by simpa using h2))

theorem compareCaseInsensitive_eq_neg_one_iff (a b : String) :
    compareCaseInsensitive a b = -1 ↔ jsLt (toLowerCase a) (toLowerCase b) = true := by
  rw [compareCaseInsensitive_eq]
  split_ifs with h1 h2
  · exact iff_of_true rfl h1
  · exact iff_of_false (by decide) (by simp [h1])
  · exact iff_of_false (by decide) (by simp [h1])

theorem compareDomain_eq (a b : CookieListForDomain B) :
    compareDomain a b =
      if compareCaseInsensitive a.firstPartyDomain b.firstPartyDomain ≠ 0
      then compareCaseInsensitive a.firstPartyDomain b.firstPartyDomain
      else compareCaseInsensitive a.domain b.domain :=
  rfl

theorem domainLe_iff (a b : CookieListForDomain B) :
    domainLe a b ↔
      (jsLt (toLowerCase a.firstPartyDomain) (toLowerCase b.firstPartyDomain) = true ∨
       (toLowerCase a.firstPartyDomain = toLowerCase b.firstPartyDomain ∧
        jsLt (toLowerCase b.domain) (toLowerCase a.domain) = false)) := by
  show compareDomain a b ≤ 0 ↔ _
  rw [compareDomain_eq]
  split_ifs with h
  · constructor
    · intro hle
      left
      have hfb := (compareCaseInsensitive_le_zero_iff _ _).mp hle
      cases hlt : jsLt (toLowerCase a.firstPartyDomain) (toLowerCase b.firstPartyDomain) with
      | true => rfl
      | false =>
        exact absurd ((compareCaseInsensitive_eq_zero_iff _ _).mpr
          (eq_of_jsLt_false hlt hfb)) h
    · rintro (hlt | ⟨heq, _⟩)
      · rw [(compareCaseInsensitive_eq_neg_one_iff _ _).mpr hlt]
        decide
      · exact absurd ((compareCaseInsensitive_eq_zero_iff _ _).mpr heq) h
  · push_neg at h
    have heq := (compareCaseInsensitive_eq_zero_iff _ _).mp h
    rw [compareCaseInsensitive_le_zero_iff]
    constructor
    · intro hd
      exact Or.inr ⟨heq, hd⟩
    · rintro (hlt | ⟨_, hd⟩)
      · rw [heq, jsLt_self] at hlt
        simp at hlt
      · exact hd

theorem cookieNameLe_iff (a b : CookieListCookie B) :
    cookieNameLe a b ↔
      jsLt (toLowerCase b.cookie.name) (toLowerCase a.cookie.name) = false :=
  compareCaseInsensitive_le_zero_iff _ _

instance : IsTotal (CookieListForDomain B) domainLe where
  total a b := by
    by_cases h1 : jsLt (toLowerCase a.firstPartyDomain) (toLowerCase b.firstPartyDomain) = true
    · exact Or.inl ((domainLe_iff a b).mpr (Or.inl h1))
    · by_cases h2 : jsLt (toLowerCase b.firstPartyDomain) (toLowerCase a.firstPartyDomain) = true
      · exact Or.inr ((domainLe_iff b a).mpr (Or.inl h2))
      · have heq := eq_of_jsLt_false (by simpa using h1) (by simpa using h2)
        by_cases h3 : jsLt (toLowerCase b.domain) (toLowerCase a.domain) = true
        · exact Or.inr ((domainLe_iff b a).mpr (Or.inr ⟨heq.symm, jsLt_asymm h3⟩))
        · exact Or.inl ((domainLe_iff a b).mpr (Or.inr ⟨heq, by simpa using h3⟩))

instance : IsTrans (CookieListForDomain B) domainLe where
  trans a b c hab hbc := by
    rw [domainLe_iff] at hab hbc ⊢
    rcases hab with h1 | ⟨e1, d1⟩ <;> rcases hbc with h2 | ⟨e2, d2⟩
    · exact Or.inl (jsLt_trans h1 h2)
    · exact Or.inl (e2 ▸ h1)
    · exact Or.inl (e1 ▸ h2)
    · exact Or.inr ⟨e1.trans e2, jsLt_false_trans d2 d1⟩

instance : IsTotal (CookieListCookie B) cookieNameLe where
  total a b := by
    cases h : jsLt (toLowerCase b.cookie.name) (toLowerCase a.cookie.name) with
    | false => exact Or.inl ((cookieNameLe_iff a b).mpr h)
    | true => exact Or.inr ((cookieNameLe_iff b a).mpr (jsLt_asymm h))

instance : IsTrans (CookieListCookie B) cookieNameLe where
  trans a b c hab hbc := by
    rw [cookieNameLe_iff] at hab hbc ⊢
    exact jsLt_false_trans hbc hab

theorem jsLt_false_iff (a b : String) : jsLt b a = false ↔ (jsLt a b = true ∨ a = b) := by
  constructor
  · intro h
    cases h2 : jsLt a b with
    | true => exact Or.inl rfl
    | false => exact Or.inr (eq_of_jsLt_false h2 h)
  · rintro (h | rfl)
    · exact jsLt_asymm h
    · exact jsLt_self a

theorem getCookieList_eq (env : Env B) (cookies : List Cookie) :
    getCookieList env cookies =
      (List.insertionSort domainLe (getCookieListUnsorted env cookies)).map
        fun a => { a with cookies := List.insertionSort cookieNameLe a.cookies } :=
  rfl

/-! Results on the claims. -/

/-- C9: for the empty input sequence of cookie records, `getCookieList`
returns the empty sequence of groups. -/
theorem c9_empty_input {B : Type} (env : Env B) :
    getCookieList env ([] : List Cookie) = [] :=
  rfl

/-- C1 (refuting evaluation): on input `dotAfterInput` — `example.com`
followed by `.example.com`, both stripping to the same bucket — the
output retains a single cookie entry out of two input records: the loop
looks the bucket up under the un-stripped domain but stores it under the
stripped one, so the second record re-creates the bucket's group and the
first record is lost. -/
theorem c1_cookie_lost_on_dotAfterInput :
    totalCookies (getCookieList demoEnv dotAfterInput) = 1 ∧
    dotAfterInput.length = 2 := by
  decide

/-- C2 (refuting evaluation): the two records of `dotAfterInput` have
identical post-strip raw domains, yet the output's only group holds just
the cookie named "b"; the cookie named "a" is in no output group, so the
two records are not placed into the same group. -/
theorem c2_same_bucket_not_grouped_on_dotAfterInput :
    rawDomainOf ".example.com" = rawDomainOf "example.com" ∧
    (getCookieList demoEnv dotAfterInput).map
        (fun g => g.cookies.map fun e => e.cookie.name) = [["b"]] := by
  decide

/-- C5 (refuting evaluation): on `dotAfterInput` the second record of the
bucket is not appended to the group created by the first one; instead a
fresh group (display domain ".example.com", cookie list just ["b"])
replaces it. -/
theorem c5_subsequent_cookie_not_appended :
    (getCookieList demoEnv dotAfterInput).map
        (fun g => (g.domain, g.cookies.map fun e => e.cookie.name)) =
      [(".example.com", ["b"])] := by
  decide

/-- C6 (refuting evaluation): under `nullResolverEnv` the resolver fails
on "localhost"; the fallback to the raw domain does take effect for the
bucket (firstPartyDomain "localhost"), but the resolver-failed cookie
named "a" nevertheless vanishes from the output, overwritten by the
later ".localhost" record. -/
theorem c6_resolver_failed_cookie_dropped :
    nullResolverEnv.getDomain (rawDomainOf "localhost") = none ∧
    (getCookieList nullResolverEnv localhostInput).map
        (fun g => (g.domain, g.firstPartyDomain, g.cookies.map fun e => e.cookie.name)) =
      [(".localhost", "localhost", ["b"])] := by
  decide

/-- C3 (counterexample): for `dotFirstInput` — `.example.com` then
`example.com` with the resolver returning "example.com" — the returned
group's display domain is not "example.com" as the claim states. -/
theorem c3_display_domain_counterexample :
    (getCookieList demoEnv dotFirstInput).map (fun g => g.domain) ≠ ["example.com"] := by
  decide

/-- C3 (amended): for `dotFirstInput` the output is exactly one group
whose display domain is ".example.com" — the original un-stripped domain
of the record that created the group — whose firstPartyDomain is
"example.com", and whose cookie list is sorted ["a", "b"]. -/
theorem c3_amended_single_group :
    (getCookieList demoEnv dotFirstInput).map
        (fun g => (g.domain, g.firstPartyDomain, g.cookies.map fun e => e.cookie.name)) =
      [(".example.com", "example.com", ["a", "b"])] := by
  decide

/-- C7: `getCookieList` is deterministic — two runs over the same record
sequence with oracles answering identically produce identical ordered
group structures. -/
theorem c7_deterministic {B : Type} (env1 env2 : Env B) (cookies : List Cookie)
    (h1 : ∀ d, env1.getDomain d = env2.getDomain d)
    (h2 : ∀ d n, env1.getCleanupTypeForCookie d n = env2.getCleanupTypeForCookie d n)
    (h3 : ∀ d, env1.getCleanupTypeForDomain d = env2.getCleanupTypeForDomain d)
    (h4 : ∀ t, env1.getBadgeForCleanupType t = env2.getBadgeForCleanupType t) :
    getCookieList env1 cookies = getCookieList env2 cookies := by
  have he : env1 = env2 := by
    cases env1
    cases env2
    simp only [Env.mk.injEq]
    exact ⟨funext h1, funext fun d => funext (h2 d), funext h3, funext h4⟩
  rw [he]

/-- C7 witness: two syntactically different but pointwise-equal oracle
bundles give the same output on `demoInput`. -/
theorem c7_deterministic_witness :
    getCookieList demoEnv demoInput = getCookieList demoEnvTwin demoInput :=
  c7_deterministic demoEnv demoEnvTwin demoInput
    (fun _ => rfl) (fun _ _ => rfl) (fun _ => rfl) (fun _ => rfl)

/-- C4: the returned groups are sorted ascending by lower-cased
first-party domain, ties broken by lower-cased raw domain, under
lexicographic string comparison of the lower-cased values, and within
each group the cookie entries are sorted ascending by lower-cased name. -/
theorem c4_output_sorted {B : Type} (env : Env B) (cookies : List Cookie) :
    ((getCookieList env cookies).Chain' fun a b =>
        jsLt (toLowerCase a.firstPartyDomain) (toLowerCase b.firstPartyDomain) = true ∨
        (toLowerCase a.firstPartyDomain = toLowerCase b.firstPartyDomain ∧
         (jsLt (toLowerCase a.domain) (toLowerCase b.domain) = true ∨
          toLowerCase a.domain = toLowerCase b.domain))) ∧
    ∀ g ∈ getCookieList env cookies,
      g.cookies.Chain' fun x y =>
        jsLt (toLowerCase x.cookie.name) (toLowerCase y.cookie.name) = true ∨
        toLowerCase x.cookie.name = toLowerCase y.cookie.name := by
  rw [getCookieList_eq]
  constructor
  · refine List.Pairwise.chain' ?_
    rw [List.pairwise_map]
    refine (List.sorted_insertionSort domainLe (getCookieListUnsorted env cookies)).imp ?_
    intro a b hab
    rw [domainLe_iff] at hab
    rcases hab with h | ⟨he, hd⟩
    · exact Or.inl h
    · exact Or.inr ⟨he, (jsLt_false_iff _ _).mp hd⟩
  · intro g hg
    rcases List.mem_map.mp hg with ⟨g0, _, rfl⟩
    refine List.Pairwise.chain'
      ((List.sorted_insertionSort cookieNameLe g0.cookies).imp ?_)
    intro x y hxy
    rw [cookieNameLe_iff] at hxy
    exact (jsLt_false_iff _ _).mp hxy

/-- C4 witness: the sortedness facts evaluated on `demoInput`, the group
part on the whole output and the cookie part on its first group. -/
theorem c4_output_sorted_witness :
    ((getCookieList demoEnv demoInput).Chain' fun a b =>
        jsLt (toLowerCase a.firstPartyDomain) (toLowerCase b.firstPartyDomain) = true ∨
        (toLowerCase a.firstPartyDomain = toLowerCase b.firstPartyDomain ∧
         (jsLt (toLowerCase a.domain) (toLowerCase b.domain) = true ∨
          toLowerCase a.domain = toLowerCase b.domain))) ∧
    demoGroup.cookies.Chain' (fun x y =>
        jsLt (toLowerCase x.cookie.name) (toLowerCase y.cookie.name) = true ∨
        toLowerCase x.cookie.name = toLowerCase y.cookie.name) :=
  ⟨(c4_output_sorted demoEnv demoInput).1,
   (c4_output_sorted demoEnv demoInput).2 demoGroup (by decide)⟩

/-- C8: sorting only permutes; the domain, firstPartyDomain and
cookie-name strings held by the output groups are the very strings of
the pre-sort structure — lower-casing happens only inside the
comparators, never on the stored fields. -/
theorem c8_sorting_preserves_strings {B : Type} (env : Env B) (cookies : List Cookie) :
    (((getCookieList env cookies).map fun g => (g.domain, g.firstPartyDomain)).Perm
      ((getCookieListUnsorted env cookies).map fun g => (g.domain, g.firstPartyDomain))) ∧
    ∀ g ∈ getCookieList env cookies, ∃ g' ∈ getCookieListUnsorted env cookies,
      g.domain = g'.domain ∧ g.firstPartyDomain = g'.firstPartyDomain ∧
      (g.cookies.map fun e => e.cookie.name).Perm
        (g'.cookies.map fun e => e.cookie.name) := by
  rw [getCookieList_eq]
  constructor
  · rw [List.map_map]
    exact (List.perm_insertionSort domainLe (getCookieListUnsorted env cookies)).map _
  · intro g hg
    rcases List.mem_map.mp hg with ⟨g0, hg0, rfl⟩
    exact ⟨g0, (List.perm_insertionSort domainLe _).subset hg0, rfl, rfl,
      (List.perm_insertionSort cookieNameLe g0.cookies).map _⟩

/-- C8 witness: the preservation facts evaluated on `demoInput`, the
existence part at the output's first group. -/
theorem c8_sorting_preserves_strings_witness :
    (((getCookieList demoEnv demoInput).map fun g => (g.domain, g.firstPartyDomain)).Perm
      ((getCookieListUnsorted demoEnv demoInput).map fun g => (g.domain, g.firstPartyDomain))) ∧
    ∃ g' ∈ getCookieListUnsorted demoEnv demoInput,
      demoGroup.domain = g'.domain ∧ demoGroup.firstPartyDomain = g'.firstPartyDomain ∧
      (demoGroup.cookies.map fun e => e.cookie.name).Perm
        (g'.cookies.map fun e => e.cookie.name) :=
  ⟨(c8_sorting_preserves_strings demoEnv demoInput).1,
   (c8_sorting_preserves_strings demoEnv demoInput).2 demoGroup (by decide)⟩

/-! Association-list facts feeding the no-dot grouping claim. -/

theorem lookupKey_eq_none_iff {m : List (String × CookieListForDomain B)} {k : String} :
    lookupKey m k = none ↔ ∀ p ∈ m, p.1 ≠ k := by
  simp [lookupKey, List.find?_eq_none]

theorem lookupKey_some_mem {m : List (String × CookieListForDomain B)} {k : String}
    {g : CookieListForDomain B} (h : lookupKey m k = some g) : (k, g) ∈ m := by
  unfold lookupKey at h
  cases hf : m.find? (fun p => p.1 == k) with
  | none => rw [hf] at h; simp at h
  | some q =>
    rw [hf] at h
    simp only [Option.map_some', Option.some.injEq] at h
    have hq : q.1 = k := by simpa using List.find?_some hf
    have hqm := List.mem_of_find?_eq_some hf
    have : q = (k, g) := Prod.ext hq h
    rwa [this] at hqm

theorem setKey_of_not_mem {m : List (String × CookieListForDomain B)} {k : String}
    (v : CookieListForDomain B) (h : ∀ p ∈ m, p.1 ≠ k) :
    setKey m k v = m ++ [(k, v)] := by
  have hc : (m.any fun p => p.1 == k) = false := by
    cases hany : m.any (fun p => p.1 == k) with
    | false => rfl
    | true =>
      rcases List.any_eq_true.mp hany with ⟨p, hp, hk⟩
      exact absurd (by simpa using hk) (h p hp)
  simp [setKey, hc]

theorem setKey_replace_decomp {m : List (String × CookieListForDomain B)}
    (hnd : (m.map Prod.fst).Nodup) {k : String} {g : CookieListForDomain B}
    (hfind : lookupKey m k = some g) (v : CookieListForDomain B) :
    ∃ l1 l2, m = l1 ++ (k, g) :: l2 ∧ setKey m k v = l1 ++ (k, v) :: l2 := by
  induction m with
  | nil => simp [lookupKey] at hfind
  | cons p m' ih =>
    rw [List.map_cons, List.nodup_cons] at hnd
    by_cases hpk : p.1 = k
    · have hp2 : p.2 = g := by
        simp [lookupKey, List.find?_cons_of_pos, hpk] at hfind
        exact hfind
      have hpe : p = (k, g) := Prod.ext hpk hp2
      refine ⟨[], m', by rw [hpe]; rfl, ?_⟩
      have hmap : (m'.map fun q => if q.1 == k then (k, v) else q) = m' := by
        have : ∀ q ∈ m', (if q.1 == k then (k, v) else q) = q := by
          intro q hq
          have : q.1 ≠ k := fun hqk => hnd.1 (hpk ▸ hqk ▸ List.mem_map_of_mem Prod.fst hq)
          simp [this]
        rw [List.map_congr_left this]
        exact List.map_id' m'
      have hany : ((p :: m').any fun q => q.1 == k) = true := by
        simp [List.any_cons, hpk]
      simp only [setKey, hany, if_true, List.map_cons, hmap]
      simp [hpk]
    · have hfind' : lookupKey m' k = some g := by
        simpa [lookupKey, List.find?_cons_of_neg, hpk] using hfind
      rcases ih hnd.2 hfind' with ⟨l1, l2, hm, hset⟩
      have hany' : (m'.any fun q => q.1 == k) = true :=
        List.any_eq_true.mpr ⟨(k, g), lookupKey_some_mem hfind', by simp⟩
      have hmap' : (m'.map fun q => if q.1 == k then (k, v) else q) = l1 ++ (k, v) :: l2 := by
        rw [← hset]
        simp [setKey, hany']
      refine ⟨p :: l1, l2, by rw [hm]; rfl, ?_⟩
      have hany : ((p :: m').any fun q => q.1 == k) = true := by
        simp [List.any_cons, hany']
      simp only [setKey, hany, if_true, List.map_cons, hmap', hpk]
      simp [hpk]

theorem allCookies_append (l1 l2 : List (CookieListForDomain B)) :
    allCookies (l1 ++ l2) = allCookies l1 ++ allCookies l2 := by
  simp [allCookies]

theorem allCookies_cons (g : CookieListForDomain B) (l : List (CookieListForDomain B)) :
    allCookies (g :: l) = (g.cookies.map fun e => e.cookie) ++ allCookies l := by
  simp [allCookies]

theorem allCookies_perm_of_perm {l1 l2 : List (CookieListForDomain B)} (h : l1.Perm l2) :
    (allCookies l1).Perm (allCookies l2) := by
  unfold allCookies
  exact (h.map _).flatten

theorem allCookies_map_sortCookies (l : List (CookieListForDomain B)) :
    (allCookies (l.map fun a =>
        { a with cookies := List.insertionSort cookieNameLe a.cookies })).Perm
      (allCookies l) := by
  induction l with
  | nil => exact List.Perm.refl _
  | cons g l ih =>
    simp only [List.map_cons, allCookies_cons]
    exact ((List.perm_insertionSort cookieNameLe g.cookies).map _).append ih

theorem append_middle_singleton_perm {α : Type} (X N Y : List α) (c : α) :
    (X ++ (N ++ [c] ++ Y)).Perm (X ++ (N ++ Y) ++ [c]) := by
  have h1 : X ++ (N ++ [c] ++ Y) = (X ++ N) ++ c :: Y := by simp
  have h2 : X ++ (N ++ Y) ++ [c] = ((X ++ N) ++ Y) ++ [c] := by simp
  rw [h1, h2]
  exact List.perm_middle.trans (List.perm_append_singleton c _).symm

/-- Shape of one loop iteration, with the lets resolved. -/
theorem processCookie_eq (env : Env B) (m : List (String × CookieListForDomain B))
    (c : Cookie) :
    processCookie env m c =
      match lookupKey m c.domain with
      | some g =>
          setKey m c.domain
            { g with cookies := g.cookies ++
                [⟨env.getBadgeForCleanupType
                    (env.getCleanupTypeForCookie (rawDomainOf c.domain) c.name), c⟩] }
      | none =>
          setKey m (rawDomainOf c.domain)
            { badge := env.getBadgeForCleanupType
                (env.getCleanupTypeForDomain (rawDomainOf c.domain))
              domain := c.domain
              firstPartyDomain := jsOrElse (env.getDomain (rawDomainOf c.domain))
                (rawDomainOf c.domain)
              cookies := [⟨env.getBadgeForCleanupType
                  (env.getCleanupTypeForCookie (rawDomainOf c.domain) c.name), c⟩] } :=
  rfl

theorem setKey_update_good {m : List (String × CookieListForDomain B)} (hm : GoodMap m)
    {k : String} {g : CookieListForDomain B} (hbd : lookupKey m k = some g)
    (e : CookieListCookie B) (he : e.cookie.domain = k) :
    GoodMap (setKey m k { g with cookies := g.cookies ++ [e] }) ∧
    (allCookies ((setKey m k { g with cookies := g.cookies ++ [e] }).map Prod.snd)).Perm
      (allCookies (m.map Prod.snd) ++ [e.cookie]) := by
  rcases setKey_replace_decomp hm.1 hbd { g with cookies := g.cookies ++ [e] }
    with ⟨l1, l2, hmeq, hset⟩
  rw [hset]
  have hentry : g.domain = k ∧ ∀ x ∈ g.cookies, x.cookie.domain = k :=
    hm.2 (k, g) (lookupKey_some_mem hbd)
  constructor
  · constructor
    · have hkeys : ((l1 ++ (k, { g with cookies := g.cookies ++ [e] }) :: l2).map Prod.fst) =
          m.map Prod.fst := by
        rw [hmeq]
        simp
      rw [hkeys]
      exact hm.1
    · intro p hp
      rcases List.mem_append.mp hp with hp | hp
      · exact hm.2 p (by rw [hmeq]; exact List.mem_append_left _ hp)
      · rcases List.mem_cons.mp hp with rfl | hp
        · refine ⟨hentry.1, ?_⟩
          intro x hx
          rcases List.mem_append.mp hx with hx | hx
          · exact hentry.2 x hx
          · rcases List.mem_singleton.mp hx with rfl
            exact he
        · exact hm.2 p
            (by rw [hmeq]; exact List.mem_append_right _ (List.mem_cons_of_mem _ hp))
  · rw [hmeq]
    simp only [List.map_append, List.map_cons]
    rw [allCookies_append, allCookies_cons, allCookies_append, allCookies_cons]
    simp only [List.map_append, List.map_cons, List.map_nil]
    exact append_middle_singleton_perm _ _ _ _

theorem setKey_insert_good {m : List (String × CookieListForDomain B)} (hm : GoodMap m)
    {k : String} (hbd : lookupKey m k = none) (v : CookieListForDomain B)
    (hvdom : v.domain = k) (hvcook : ∀ e ∈ v.cookies, e.cookie.domain = k) :
    GoodMap (setKey m k v) ∧
    (allCookies ((setKey m k v).map Prod.snd)).Perm
      (allCookies (m.map Prod.snd) ++ v.cookies.map fun e => e.cookie) := by
  have hnone : ∀ p ∈ m, p.1 ≠ k := lookupKey_eq_none_iff.mp hbd
  rw [setKey_of_not_mem v hnone]
  constructor
  · constructor
    · rw [List.map_append, List.nodup_append]
      refine ⟨hm.1, List.nodup_singleton _, ?_⟩
      intro a ha hb
      simp only [List.map_cons, List.map_nil, List.mem_singleton] at hb
      rcases List.mem_map.mp ha with ⟨p, hp, rfl⟩
      exact hnone p hp hb
    · intro p hp
      rcases List.mem_append.mp hp with hp | hp
      · exact hm.2 p hp
      · rcases List.mem_singleton.mp hp with rfl
        exact ⟨hvdom, hvcook⟩
  · rw [List.map_append]
    simp only [List.map_cons, List.map_nil]
    rw [allCookies_append, allCookies_cons]
    have : allCookies ([] : List (CookieListForDomain B)) = [] := rfl
    rw [this, List.append_nil]

theorem processCookie_no_dot (env : Env B) {m : List (String × CookieListForDomain B)}
    (hm : GoodMap m) {c : Cookie} (hc : rawDomainOf c.domain = c.domain) :
    GoodMap (processCookie env m c) ∧
    (allCookies ((processCookie env m c).map Prod.snd)).Perm
      (allCookies (m.map Prod.snd) ++ [c]) := by
  cases hbd : lookupKey m c.domain with
  | none =>
    simp only [processCookie_eq, hc, hbd]
    obtain ⟨h1, h2⟩ := setKey_insert_good hm hbd
      { badge := env.getBadgeForCleanupType (env.getCleanupTypeForDomain c.domain)
        domain := c.domain
        firstPartyDomain := jsOrElse (env.getDomain c.domain) c.domain
        cookies := [⟨env.getBadgeForCleanupType
            (env.getCleanupTypeForCookie c.domain c.name), c⟩] }
      rfl
      (by intro e he; rcases List.mem_singleton.mp he with rfl; rfl)
    exact ⟨h1, by simpa using h2⟩
  | some g =>
    simp only [processCookie_eq, hc, hbd]
    exact setKey_update_good hm hbd
      ⟨env.getBadgeForCleanupType (env.getCleanupTypeForCookie c.domain c.name), c⟩ rfl

theorem foldl_processCookie_no_dot (env : Env B) (cs : List Cookie) :
    ∀ m : List (String × CookieListForDomain B),
      (∀ c ∈ cs, rawDomainOf c.domain = c.domain) → GoodMap m →
      GoodMap (cs.foldl (processCookie env) m) ∧
      (allCookies ((cs.foldl (processCookie env) m).map Prod.snd)).Perm
        (allCookies (m.map Prod.snd) ++ cs) := by
  induction cs with
  | nil =>
    intro m _ hm
    exact ⟨hm, by simp⟩
  | cons c cs ih =>
    intro m hcs hm
    obtain ⟨hm1, hp1⟩ := processCookie_no_dot env hm (hcs c (List.mem_cons_self c cs))
    obtain ⟨hm2, hp2⟩ :=
      ih (processCookie env m c) (fun x hx => hcs x (List.mem_cons_of_mem _ hx)) hm1
    refine ⟨hm2, hp2.trans ?_⟩
    have h3 := hp1.append_right cs
    rwa [List.append_assoc, List.singleton_append] at h3

/-- C10: on inputs where no record's domain starts with '.', the bucket
lookup key and the bucket insertion key coincide for every record, every
input cookie appears exactly once across the output groups, and the
group holding a cookie carries that cookie's (unchanged) domain — no
group is overwritten. -/
theorem c10_no_dot_grouping {B : Type} (env : Env B) (cookies : List Cookie)
    (h : ∀ c ∈ cookies, c.domain.data.head? ≠ some '.') :
    (∀ c ∈ cookies, rawDomainOf c.domain = c.domain) ∧
    (allCookies (getCookieList env cookies)).Perm cookies ∧
    ∀ g ∈ getCookieList env cookies, ∀ e ∈ g.cookies, e.cookie.domain = g.domain := by
  have hraw : ∀ c ∈ cookies, rawDomainOf c.domain = c.domain := by
    intro c hc
    simp [rawDomainOf, h c hc]
  obtain ⟨hgm, hperm⟩ :=
    foldl_processCookie_no_dot env cookies [] hraw ⟨List.nodup_nil, by simp⟩
  refine ⟨hraw, ?_, ?_⟩
  · rw [getCookieList_eq]
    refine (allCookies_map_sortCookies _).trans
      ((allCookies_perm_of_perm (List.perm_insertionSort domainLe _)).trans ?_)
    simpa [getCookieListUnsorted, allCookies] using hperm
  · intro g hg e he
    rw [getCookieList_eq] at hg
    rcases List.mem_map.mp hg with ⟨g0, hg0, rfl⟩
    have hg0' : g0 ∈ getCookieListUnsorted env cookies :=
      (List.perm_insertionSort domainLe _).subset hg0
    rcases List.mem_map.mp hg0' with ⟨p, hp, rfl⟩
    obtain ⟨hdom, hcook⟩ := hgm.2 p hp
    have he' : e ∈ p.2.cookies := (List.perm_insertionSort cookieNameLe _).subset he
    exact (hcook e he').trans hdom.symm

/-- C10 witness: the claim's conclusions evaluated on the dot-free
`demoInput`, the per-group part at the output's first group and its
single entry. -/
theorem c10_no_dot_grouping_witness :
    rawDomainOf "sub.example.com" = "sub.example.com" ∧
    (allCookies (getCookieList demoEnv demoInput)).Perm demoInput ∧
    (⟨(), ⟨"sub.example.com", "b"⟩⟩ : CookieListCookie Unit).cookie.domain =
      demoGroup.domain := by
  have h := c10_no_dot_grouping demoEnv demoInput (by decide)
  exact ⟨h.1 ⟨"sub.example.com", "b"⟩ (by decide), h.2.1,
    h.2.2 demoGroup (by decide) _ (by decide)⟩

end CookieBrowser
